import Mathlib

/-!
Shallow embedding of the core of `src/main.rs` (a terminal falling-block
game): geometry primitives, the bit-packed board, the figure catalogue,
the orientation state machine, the per-frame `GameState::update` step and
the dual-column text compositor of `GameState::update_gui`.

Modelling conventions:
* Timestamps and durations are natural numbers of milliseconds.
  `Instant::duration_since` saturates at zero in Rust, which matches `Nat`
  subtraction.  `Duration`'s `-` operator panics on underflow, modelled by
  `checkedDurationSub` returning `none`.
* The piece position is stored in `i8` in the source and mutated with
  unchecked `+= 1` / `-= 1`; arithmetic overflow of a Rust integer is a
  panic (in debug builds), modelled by the checked operation `i8chk`
  returning `none`.  Fallible steps therefore return `Option`.
* Key input arrives as an ordered list of released key codes per frame
  (the interface of `collect_last_released_keys`); I/O itself is out of
  scope.
-/

/-- Embeds `struct Position<T> { x: T, y: T }`. -/
structure Position (α : Type) where
  x : α
  y : α
deriving DecidableEq, Repr

/-- Embeds `struct Size { height: usize, width: usize }`. -/
structure Size where
  height : Nat
  width : Nat
deriving DecidableEq, Repr, Inhabited

/-- Embeds `Size::area`: `self.height * self.width`. -/
def Size.area (s : Size) : Nat :=
  s.height * s.width

/-- Embeds `struct Board { size: Size, cells: BitVec }`; the bit-sequence
is modelled as a list of booleans. -/
structure Board where
  size : Size
  cells : List Bool
deriving DecidableEq, Repr

/-- Embeds `Board::new(size)`: `bitvec![0; size.area()]`, i.e. a cell
bit-sequence of `size.area` clear bits. -/
def Board.new (size : Size) : Board :=
  { size := size, cells := List.replicate size.area false }

/-- Embeds `<Vec<String> as StringsVecForUI>::required_width`:
`self.iter().map(|s| s.chars().count()).max().unwrap_or(0)`. -/
def required_width (lines : List String) : Nat :=
  (lines.map (fun s => s.length)).foldr max 0

/-- Embeds `enum Direction { South, East, North, West }`. -/
inductive Direction where
  | South
  | East
  | North
  | West
deriving DecidableEq, Repr

/-- Embeds the `match (self.current_figure_rotation, clockwise)` table of
`GameState::rotate_current_figure`. -/
def rotate_current_figure (d : Direction) (clockwise : Bool) : Direction :=
  match d, clockwise with
  | Direction.South, false => Direction.West
  | Direction.South, true => Direction.East
  | Direction.East, false => Direction.South
  | Direction.East, true => Direction.North
  | Direction.North, false => Direction.East
  | Direction.North, true => Direction.West
  | Direction.West, false => Direction.North
  | Direction.West, true => Direction.South

/-- Embeds `struct Figure { size: Size, cells: BitArray<[u8; 1]> }`; the
cell bit-sequence is the list of bits written in the `bitarr!` literal. -/
structure Figure where
  size : Size
  cells : List Bool
deriving DecidableEq, Repr, Inhabited

/-- Embeds `Figure::VARIANTS`: the 7 constants (I, J, L, T, S, Z, Square)
with the exact bit rows written in the source. -/
def Figure.VARIANTS : List Figure :=
  [ { size := { height := 4, width := 1 },
      cells := [true, true, true, true] },
    { size := { height := 3, width := 2 },
      cells := [false, true,
                false, true,
                true, true] },
    { size := { height := 3, width := 2 },
      cells := [true, false,
                true, false,
                true, true] },
    { size := { height := 2, width := 3 },
      cells := [true, true, true,
                false, true, false] },
    { size := { height := 2, width := 3 },
      cells := [false, true, true,
                true, true, false] },
    { size := { height := 2, width := 3 },
      cells := [true, true, false,
                false, true, true] },
    { size := { height := 2, width := 2 },
      cells := [true, true,
                true, true] } ]

/-- Models the `crossterm` key codes the update loop can receive: the
codes matched in `GameState::update` plus a catch-all for every other
`KeyCode` variant (hit by the `_ => ()` arm). -/
inductive Key where
  | esc
  | down
  | left
  | right
  | char (c : Char)
  | other (code : Nat)
deriving DecidableEq, Repr

/-- Embeds `struct GameState`.  `current_figure` / `next_figure` are the
referenced catalogue constants; timestamps are in milliseconds. -/
structure GameState where
  is_running : Bool
  current_figure : Figure
  current_figure_position : Position Int
  current_figure_rotation : Direction
  next_figure : Figure
  last_figure_lowering_time : Nat
  lines_hit : Nat
  score : Nat
  board : Board
deriving DecidableEq, Repr

/-- Embeds `GameState::BASE_FIGURE_LOWERING_DURATION` (2500 ms). -/
def BASE_FIGURE_LOWERING_DURATION : Nat := 2500

/-- Embeds `GameState::MIN_FIGURE_LOWERING_DURATION` (250 ms). -/
def MIN_FIGURE_LOWERING_DURATION : Nat := 250

/-- Checked subtraction of Rust `Duration` values: `a - b` panics when
`b > a`, modelled as `none`. -/
def checkedDurationSub (a b : Nat) : Option Nat :=
  if b ≤ a then some (a - b) else none

/-- Embeds `GameState::get_level`: `self.lines_hit + 1`. -/
def GameState.get_level (st : GameState) : Nat :=
  st.lines_hit + 1

/-- Embeds the body of `GameState::get_figure_lowering_duration` as a
function of the level:
`max(BASE_FIGURE_LOWERING_DURATION - Duration::from_millis(level * 10), MIN_FIGURE_LOWERING_DURATION)`,
with the `Duration` subtraction checked. -/
def figureLoweringDurationOfLevel (level : Nat) : Option Nat :=
  (checkedDurationSub BASE_FIGURE_LOWERING_DURATION (level * 10)).map
    (fun d => max d MIN_FIGURE_LOWERING_DURATION)

/-- Embeds `GameState::get_figure_lowering_duration`. -/
def GameState.get_figure_lowering_duration (st : GameState) : Option Nat :=
  figureLoweringDurationOfLevel st.get_level

/-- Checked `i8` arithmetic: the result of an `i8` `+= 1` / `-= 1` must
stay within `[-128, 127]`; Rust overflow is a panic, modelled as `none`. -/
def i8chk (n : Int) : Option Int :=
  if -128 ≤ n ∧ n ≤ 127 then some n else none

/-- Embeds the `for key_code in keys_to_process` loop of
`GameState::update`.  The boolean of the result is `true` when the loop
hit `KeyCode::Esc` and the method returned early (`self.stop(); return`),
in which case the remaining keys are not processed. -/
def processKeys : GameState → List Key → Option (GameState × Bool)
  | st, [] => some (st, false)
  | st, key :: rest =>
    match key with
    | Key.esc => some ({ st with is_running := false }, true)
    | Key.down =>
      match i8chk (st.current_figure_position.y + 1) with
      | some y =>
        processKeys
          { st with current_figure_position := { st.current_figure_position with y := y } } rest
      | none => none
    | Key.left =>
      match i8chk (st.current_figure_position.x - 1) with
      | some x =>
        processKeys
          { st with current_figure_position := { st.current_figure_position with x := x } } rest
      | none => none
    | Key.right =>
      match i8chk (st.current_figure_position.x + 1) with
      | some x =>
        processKeys
          { st with current_figure_position := { st.current_figure_position with x := x } } rest
      | none => none
    | Key.char c =>
      if c = 'q' then
        processKeys
          { st with current_figure_rotation := rotate_current_figure st.current_figure_rotation false } rest
      else if c = 'e' then
        processKeys
          { st with current_figure_rotation := rotate_current_figure st.current_figure_rotation true } rest
      else
        processKeys st rest
    | Key.other _ => processKeys st rest

/-- Embeds the gravity block at the end of `GameState::update`: when
`frame_start - last_figure_lowering_time > get_figure_lowering_duration()`
it resets `last_figure_lowering_time` — the `y += 1` advance is commented
out in the source (`// Временно`) and is therefore absent here. -/
def gravityStep (st : GameState) (frame_start : Nat) : Option GameState :=
  match st.get_figure_lowering_duration with
  | none => none
  | some d =>
    if frame_start - st.last_figure_lowering_time > d then
      some { st with last_figure_lowering_time := frame_start }
    else
      some st

/-- Embeds `GameState::update`, with the frame's released-key batch and
the frame start timestamp (milliseconds) passed in: the key loop, then —
unless the loop returned early on `Esc` — the gravity check. -/
def GameState.update (st : GameState) (keys : List Key) (frame_start : Nat) :
    Option GameState :=
  match processKeys st keys with
  | none => none
  | some (st1, true) => some st1
  | some (st1, false) => gravityStep st1 frame_start

/-- Embeds `itertools::zip_longest` on two line lists, with the
`EitherOrBoth` arms already resolved to the empty string as in
`GameState::update_gui`. -/
def zipLongest : List String → List String → List (String × String)
  | [], bs => bs.map (fun b => ("", b))
  | a :: as_, bs =>
    match bs with
    | [] => (a, "") :: zipLongest as_ []
    | b :: bs2 => (a, b) :: zipLongest as_ bs2

/-- Embeds Rust's `format!("{:<width$}", s)`: left-justify `s`, padding
with spaces on the right up to `width` characters (never truncating). -/
def padTo (s : String) (width : Nat) : String :=
  s ++ String.mk (List.replicate (width - s.length) ' ')

/-- Embeds the output loop of `GameState::update_gui`: for each
`zip_longest` pair, print
`format!("{:<stat_part_width$}  {:<board_part_width$}", stat, board)`
on its own row. -/
def composeColumns (statistics_part board_part : List String) : List String :=
  (zipLongest statistics_part board_part).map
    (fun p =>
      padTo p.1 (required_width statistics_part) ++ "  " ++
        padTo p.2 (required_width board_part))

/-- Concrete game state used to instantiate theorems: the fields
`GameState::new` produces, with the figure choices fixed to the first two
catalogue entries and the clock at 0 ms. -/
def sampleState : GameState :=
  { is_running := true
    current_figure := Figure.VARIANTS.headI
    current_figure_position := { x := 0, y := 0 }
    current_figure_rotation := Direction.South
    next_figure := (Figure.VARIANTS.drop 1).headI
    last_figure_lowering_time := 0
    lines_hit := 0
    score := 0
    board := Board.new { height := 15, width := 10 } }

/-- State the sample reaches after the batch `[Left, Left, Right]`. -/
def shiftedSample : GameState :=
  { sampleState with current_figure_position := { x := -1, y := 0 } }

/-- State the sample reaches after the batch `[Down]`. -/
def droppedSample : GameState :=
  { sampleState with current_figure_position := { x := 0, y := 1 } }

/-- Keys of a frame batch strictly before the first `Esc`. -/
def keysBeforeEsc (keys : List Key) : List Key :=
  keys.takeWhile (fun key => !(key == Key.esc))

/-- C3: each of the 7 catalogue figures has a cell bit-sequence whose
length equals `size.height * size.width` of its bounding box. -/
theorem figure_variants_cells_match_area :
    Figure.VARIANTS.all (fun f => f.cells.length == f.size.area) = true := by
  decide

/-- C4: the orientation transitions of `rotate_current_figure` form a
4-cycle (four clockwise rotations are the identity), clockwise and
counter-clockwise are mutual inverses, and the clockwise transitions
follow the table South → East → North → West → South. -/
theorem direction_rotation_four_cycle :
    (∀ d : Direction,
      rotate_current_figure
        (rotate_current_figure
          (rotate_current_figure (rotate_current_figure d true) true) true) true = d) ∧
    (∀ d : Direction, rotate_current_figure (rotate_current_figure d true) false = d) ∧
    (∀ d : Direction, rotate_current_figure (rotate_current_figure d false) true = d) ∧
    rotate_current_figure Direction.South true = Direction.East ∧
    rotate_current_figure Direction.East true = Direction.North ∧
    rotate_current_figure Direction.North true = Direction.West ∧
    rotate_current_figure Direction.West true = Direction.South :=
  ⟨fun d => by cases d <;> rfl,
   fun d => by cases d <;> rfl,
   fun d => by cases d <;> rfl,
   rfl, rfl, rfl, rfl⟩

/-- C1 (code evaluation at the failing input): with no keys pending, a
level-1 state whose last gravity tick is 0 ms and a frame starting at
3000 ms (elapsed 3000 ms > 2490 ms threshold), `GameState::update` resets
`last_figure_lowering_time` to the frame start but leaves the piece's
position unchanged — the `y += 1` advance is commented out in the source.
When the elapsed time does not exceed the threshold (frame at 1000 ms),
nothing changes. -/
theorem gravity_tick_resets_timer_without_moving_piece :
    GameState.update sampleState [] 3000 =
      some { sampleState with last_figure_lowering_time := 3000 } ∧
    GameState.update sampleState [] 1000 = some sampleState :=
  ⟨rfl, rfl⟩

/-- C10: the piece coordinates are 8-bit signed integers updated without
a bounds guard, so the checked increment fails past 127 and there is a
key sequence (128 soft-drops from the spawn position y = 0) on which the
update step is not total. -/
theorem update_not_total_on_i8_overflow :
    i8chk (127 + 1) = none ∧
    GameState.update sampleState (List.replicate 128 Key.down) 0 = none :=
  ⟨rfl, rfl⟩

/-- C2 (counterexample): the claim says `lowering_duration` is total and
saturates at the minimum for every level, but at level 251 the `Duration`
subtraction `BASE - 10ms * level` underflows (2500 ms < 2510 ms), which
panics in Rust — modelled as `none`. -/
theorem lowering_duration_not_total_at_251 :
    figureLoweringDurationOfLevel 251 = none :=
  rfl

/-- C2 (amended): the method equals the level function at
`lines_hit + 1`; for levels 1..250 the duration is
`max(BASE - 10ms * level, MIN)`, equal to 2490 ms at level 1,
non-increasing, and pinned to the 250 ms minimum from level 226 on; for
every level above 250 the `Duration` subtraction underflows, so the
function is not total there. -/
theorem lowering_duration_amended :
    (∀ st : GameState, st.get_figure_lowering_duration =
        figureLoweringDurationOfLevel (st.lines_hit + 1)) ∧
    (∀ level, 1 ≤ level → level ≤ 250 →
        figureLoweringDurationOfLevel level =
          some (max (BASE_FIGURE_LOWERING_DURATION - level * 10)
            MIN_FIGURE_LOWERING_DURATION)) ∧
    figureLoweringDurationOfLevel 1 = some 2490 ∧
    (∀ l1 l2 d1 d2, 1 ≤ l1 → l1 ≤ l2 → l2 ≤ 250 →
        figureLoweringDurationOfLevel l1 = some d1 →
        figureLoweringDurationOfLevel l2 = some d2 → d2 ≤ d1) ∧
    (∀ level, 226 ≤ level → level ≤ 250 →
        figureLoweringDurationOfLevel level = some MIN_FIGURE_LOWERING_DURATION) ∧
    (∀ level, 250 < level → figureLoweringDurationOfLevel level = none) := by
  have hform : ∀ level, level ≤ 250 →
      figureLoweringDurationOfLevel level =
        some (max (BASE_FIGURE_LOWERING_DURATION - level * 10)
          MIN_FIGURE_LOWERING_DURATION) := by
    intro level hle
    have h10 : level * 10 ≤ BASE_FIGURE_LOWERING_DURATION := by
      unfold BASE_FIGURE_LOWERING_DURATION
      omega
    simp [figureLoweringDurationOfLevel, checkedDurationSub, h10]
  refine ⟨fun st => rfl, fun level h1 h2 => hform level h2, rfl, ?_, ?_, ?_⟩
  · intro l1 l2 d1 d2 h1 h12 h250 hd1 hd2
    rw [hform l1 (le_trans h12 h250)] at hd1
    rw [hform l2 h250] at hd2
    injection hd1 with hd1
    injection hd2 with hd2
    unfold BASE_FIGURE_LOWERING_DURATION MIN_FIGURE_LOWERING_DURATION at hd1 hd2
    omega
  · intro level h226 h250
    rw [hform level h250]
    unfold BASE_FIGURE_LOWERING_DURATION MIN_FIGURE_LOWERING_DURATION
    congr 1
    omega
  · intro level h250
    have h10 : ¬ level * 10 ≤ BASE_FIGURE_LOWERING_DURATION := by
      unfold BASE_FIGURE_LOWERING_DURATION
      omega
    simp [figureLoweringDurationOfLevel, checkedDurationSub, h10]

/-- Witness for C2 (amended), instantiating the amended statement at the
concrete levels 42, 240 and 251. -/
theorem lowering_duration_amended_witness :
    figureLoweringDurationOfLevel 42 =
      some (max (BASE_FIGURE_LOWERING_DURATION - 42 * 10)
        MIN_FIGURE_LOWERING_DURATION) ∧
    figureLoweringDurationOfLevel 240 = some MIN_FIGURE_LOWERING_DURATION ∧
    figureLoweringDurationOfLevel 251 = none :=
  ⟨lowering_duration_amended.2.1 42 (by decide) (by decide),
   lowering_duration_amended.2.2.2.2.1 240 (by decide) (by decide),
   lowering_duration_amended.2.2.2.2.2 251 (by decide)⟩

/-- C7: a key code outside the recognized set (Esc, Down, Left, Right,
'q', 'e') is skipped by the `_ => ()` arm of the key loop: the frame
update with that key at the front of the batch equals the update without
it, so position, orientation and `is_running` are untouched and no error
arises. -/
theorem unrecognized_key_is_ignored (k : Key)
    (hesc : k ≠ Key.esc) (hdown : k ≠ Key.down) (hleft : k ≠ Key.left)
    (hright : k ≠ Key.right) (hq : k ≠ Key.char 'q') (he : k ≠ Key.char 'e') :
    ∀ (st : GameState) (rest : List Key) (frame_start : Nat),
      GameState.update st (k :: rest) frame_start =
        GameState.update st rest frame_start := by
  intro st rest frame_start
  have hpk : processKeys st (k :: rest) = processKeys st rest := by
    cases k with
    | esc => exact absurd rfl hesc
    | down => exact absurd rfl hdown
    | left => exact absurd rfl hleft
    | right => exact absurd rfl hright
    | char c =>
      have hq9 : c ≠ 'q' := fun h => hq (by rw [h])
      have he9 : c ≠ 'e' := fun h => he (by rw [h])
      simp [processKeys, hq9, he9]
    | other n => rfl
  unfold GameState.update
  rw [hpk]

/-- Witness for C7 at the unrecognized key `Char('x')` on the sample
state. -/
theorem unrecognized_key_is_ignored_witness :
    GameState.update sampleState [Key.char 'x'] 0 =
      GameState.update sampleState [] 0 :=
  unrecognized_key_is_ignored (Key.char 'x') (by decide) (by decide)
    (by decide) (by decide) (by decide) (by decide) sampleState [] 0

/-- Key-loop behaviour when the batch contains `Esc`: the loop processes
exactly the keys before the first `Esc`, then stops the game and returns
early (second component `true`). -/
theorem processKeys_mem_esc (keys : List Key) (h : Key.esc ∈ keys) :
    ∀ st : GameState,
      processKeys st keys =
        (processKeys st (keysBeforeEsc keys)).map
          (fun p => ({ p.1 with is_running := false }, true)) := by
  induction keys with
  | nil => cases h
  | cons k rest ih =>
    intro st
    by_cases hk : k = Key.esc
    · subst hk
      simp [processKeys, keysBeforeEsc, List.takeWhile]
    · have hr : Key.esc ∈ rest := by
        rcases List.mem_cons.mp h with h1 | h2
        · exact absurd h1.symm hk
        · exact h2
      have htw : keysBeforeEsc (k :: rest) = k :: keysBeforeEsc rest := by
        have hb : (k == Key.esc) = false := beq_eq_false_iff_ne.mpr hk
        simp [keysBeforeEsc, List.takeWhile, hb]
      rw [htw]
      cases k with
      | esc => exact absurd rfl hk
      | down =>
        simp only [processKeys]
        cases i8chk (st.current_figure_position.y + 1) with
        | none => rfl
        | some y => exact ih hr _
      | left =>
        simp only [processKeys]
        cases i8chk (st.current_figure_position.x - 1) with
        | none => rfl
        | some x => exact ih hr _
      | right =>
        simp only [processKeys]
        cases i8chk (st.current_figure_position.x + 1) with
        | none => rfl
        | some x => exact ih hr _
      | char c =>
        simp only [processKeys]
        by_cases hcq : c = 'q'
        · simp only [hcq, if_pos rfl]
          exact ih hr _
        · by_cases hce : c = 'e'
          · simp only [if_neg hcq, hce, if_pos rfl]
            exact ih hr _
          · simp only [if_neg hcq, if_neg hce]
            exact ih hr _
      | other n =>
        simp only [processKeys]
        exact ih hr _

/-- C6: when the frame batch contains `Esc`, the update equals processing
only the keys before the first `Esc` and then setting
`is_running := false` — no later key is applied and the gravity check
does not run, so position, orientation and `last_figure_lowering_time`
keep the values they had when `Esc` was reached. -/
theorem esc_stops_and_returns_early (keys : List Key) (hesc : Key.esc ∈ keys) :
    ∀ (st : GameState) (frame_start : Nat),
      GameState.update st keys frame_start =
        (processKeys st (keysBeforeEsc keys)).map
          (fun p => { p.1 with is_running := false }) := by
  intro st frame_start
  unfold GameState.update
  rw [processKeys_mem_esc keys hesc st]
  cases processKeys st (keysBeforeEsc keys) with
  | none => rfl
  | some p => rfl

/-- Witness for C6 on the sample state with the batch
`[Down, Esc, Right]` at a frame time past the gravity threshold. -/
theorem esc_stops_and_returns_early_witness :
    GameState.update sampleState [Key.down, Key.esc, Key.right] 5000 =
      (processKeys sampleState (keysBeforeEsc [Key.down, Key.esc, Key.right])).map
        (fun p => { p.1 with is_running := false }) :=
  esc_stops_and_returns_early [Key.down, Key.esc, Key.right] (by decide)
    sampleState 5000

/-- A successful checked `i8` operation returns its argument. -/
theorem i8chk_eq_some {n m : Int} (h : i8chk n = some m) : m = n := by
  unfold i8chk at h
  split at h
  · injection h with h
    exact h.symm
  · cases h

/-- Key-loop behaviour on an `Esc`-free batch: the loop never returns
early, and the net change to the horizontal coordinate is the number of
`Right` keys minus the number of `Left` keys, in batch order. -/
theorem processKeys_x_shift (keys : List Key) (hesc : Key.esc ∉ keys) :
    ∀ (st st1 : GameState) (b : Bool), processKeys st keys = some (st1, b) →
      b = false ∧
      st1.current_figure_position.x =
        st.current_figure_position.x +
          (keys.count Key.right : Int) - (keys.count Key.left : Int) := by
  induction keys with
  | nil =>
    intro st st1 b hpk
    injection hpk with hpk
    injection hpk with h1 h2
    subst h1
    subst h2
    simp
  | cons k rest ih =>
    intro st st1 b hpk
    have hk : k ≠ Key.esc := fun h => hesc (by rw [h]; exact List.mem_cons_self _ _)
    have hr : Key.esc ∉ rest := fun h => hesc (List.mem_cons_of_mem _ h)
    cases k with
    | esc => exact absurd rfl hk
    | down =>
      simp only [processKeys] at hpk
      cases hi : i8chk (st.current_figure_position.y + 1) with
      | none => rw [hi] at hpk; cases hpk
      | some y =>
        rw [hi] at hpk
        obtain ⟨hb, hx⟩ := ih hr _ _ _ hpk
        refine ⟨hb, ?_⟩
        simp only [List.count_cons] at *
        simp at hx ⊢
        omega
    | left =>
      simp only [processKeys] at hpk
      cases hi : i8chk (st.current_figure_position.x - 1) with
      | none => rw [hi] at hpk; cases hpk
      | some x =>
        rw [hi] at hpk
        obtain ⟨hb, hx⟩ := ih hr _ _ _ hpk
        have hxv := i8chk_eq_some hi
        refine ⟨hb, ?_⟩
        simp only [List.count_cons] at *
        simp at hx ⊢
        omega
    | right =>
      simp only [processKeys] at hpk
      cases hi : i8chk (st.current_figure_position.x + 1) with
      | none => rw [hi] at hpk; cases hpk
      | some x =>
        rw [hi] at hpk
        obtain ⟨hb, hx⟩ := ih hr _ _ _ hpk
        have hxv := i8chk_eq_some hi
        refine ⟨hb, ?_⟩
        simp only [List.count_cons] at *
        simp at hx ⊢
        omega
    | char c =>
      simp only [processKeys] at hpk
      by_cases hcq : c = 'q'
      · rw [if_pos hcq] at hpk
        obtain ⟨hb, hx⟩ := ih hr _ _ _ hpk
        refine ⟨hb, ?_⟩
        simp only [List.count_cons] at *
        simp at hx ⊢
        omega
      · rw [if_neg hcq] at hpk
        by_cases hce : c = 'e'
        · rw [if_pos hce] at hpk
          obtain ⟨hb, hx⟩ := ih hr _ _ _ hpk
          refine ⟨hb, ?_⟩
          simp only [List.count_cons] at *
          simp at hx ⊢
          omega
        · rw [if_neg hce] at hpk
          obtain ⟨hb, hx⟩ := ih hr _ _ _ hpk
          refine ⟨hb, ?_⟩
          simp only [List.count_cons] at *
          simp at hx ⊢
          omega
    | other n =>
      simp only [processKeys] at hpk
      obtain ⟨hb, hx⟩ := ih hr _ _ _ hpk
      refine ⟨hb, ?_⟩
      simp only [List.count_cons] at *
      simp at hx ⊢
      omega

/-- A successful gravity step changes at most
`last_figure_lowering_time`: position, orientation, running flag and
board are untouched. -/
theorem gravityStep_preserves (st st1 : GameState) (frame_start : Nat)
    (h : gravityStep st frame_start = some st1) :
    st1.current_figure_position = st.current_figure_position ∧
    st1.current_figure_rotation = st.current_figure_rotation ∧
    st1.is_running = st.is_running ∧
    st1.board = st.board := by
  unfold gravityStep at h
  split at h
  · cases h
  · split at h
    · injection h with h
      subst h
      exact ⟨rfl, rfl, rfl, rfl⟩
    · injection h with h
      subst h
      exact ⟨rfl, rfl, rfl, rfl⟩

/-- C8: on a frame batch without `Esc`, all shift keys apply in order and
accumulate — when the update succeeds, the net horizontal displacement
equals the number of `Right` keys minus the number of `Left` keys. -/
theorem shift_keys_accumulate (keys : List Key) (hesc : Key.esc ∉ keys)
    (st st1 : GameState) (frame_start : Nat)
    (hup : GameState.update st keys frame_start = some st1) :
    st1.current_figure_position.x =
      st.current_figure_position.x +
        (keys.count Key.right : Int) - (keys.count Key.left : Int) := by
  unfold GameState.update at hup
  cases hpk : processKeys st keys with
  | none => rw [hpk] at hup; cases hup
  | some p =>
    rw [hpk] at hup
    obtain ⟨st2, b⟩ := p
    obtain ⟨hb, hx⟩ := processKeys_x_shift keys hesc st st2 b hpk
    subst hb
    have hup2 : gravityStep st2 frame_start = some st1 := hup
    obtain ⟨hpos, -, -, -⟩ := gravityStep_preserves st2 st1 frame_start hup2
    rw [hpos]
    exact hx

/-- Witness for C8: the batch `[Left, Left, Right]` on the sample state
nets one column left. -/
theorem shift_keys_accumulate_witness :
    shiftedSample.current_figure_position.x =
      sampleState.current_figure_position.x +
        ([Key.left, Key.left, Key.right].count Key.right : Int) -
        ([Key.left, Key.left, Key.right].count Key.left : Int) :=
  shift_keys_accumulate [Key.left, Key.left, Key.right] (by decide)
    sampleState shiftedSample 0 rfl

/-- The key loop never writes to the board: every key only changes the
piece position, the rotation or the running flag. -/
theorem processKeys_board (keys : List Key) :
    ∀ (st st1 : GameState) (b : Bool),
      processKeys st keys = some (st1, b) → st1.board = st.board := by
  induction keys with
  | nil =>
    intro st st1 b hpk
    injection hpk with hpk
    injection hpk with h1 h2
    subst h1
    rfl
  | cons k rest ih =>
    intro st st1 b hpk
    cases k with
    | esc =>
      simp only [processKeys] at hpk
      injection hpk with hpk
      injection hpk with h1 h2
      subst h1
      rfl
    | down =>
      simp only [processKeys] at hpk
      cases hi : i8chk (st.current_figure_position.y + 1) with
      | none => rw [hi] at hpk; cases hpk
      | some y =>
        rw [hi] at hpk
        have hb2 := ih _ _ _ hpk
        exact hb2
    | left =>
      simp only [processKeys] at hpk
      cases hi : i8chk (st.current_figure_position.x - 1) with
      | none => rw [hi] at hpk; cases hpk
      | some x =>
        rw [hi] at hpk
        have hb2 := ih _ _ _ hpk
        exact hb2
    | right =>
      simp only [processKeys] at hpk
      cases hi : i8chk (st.current_figure_position.x + 1) with
      | none => rw [hi] at hpk; cases hpk
      | some x =>
        rw [hi] at hpk
        have hb2 := ih _ _ _ hpk
        exact hb2
    | char c =>
      simp only [processKeys] at hpk
      by_cases hcq : c = 'q'
      · rw [if_pos hcq] at hpk
        have hb2 := ih _ _ _ hpk
        exact hb2
      · rw [if_neg hcq] at hpk
        by_cases hce : c = 'e'
        · rw [if_pos hce] at hpk
          have hb2 := ih _ _ _ hpk
          exact hb2
        · rw [if_neg hce] at hpk
          have hb2 := ih _ _ _ hpk
          exact hb2
    | other n =>
      simp only [processKeys] at hpk
      have hb2 := ih _ _ _ hpk
      exact hb2

/-- C9: the 15×10 board is created with exactly 150 clear bits, every
cell reads unoccupied, and no frame update ever writes to the board, so
the bits stay clear over any sequence of updates. -/
theorem board_stays_clear :
    (Board.new { height := 15, width := 10 }).cells.length = 150 ∧
    (∀ i : Nat, (Board.new { height := 15, width := 10 }).cells.getD i false = false) ∧
    (∀ (st : GameState) (keys : List Key) (frame_start : Nat) (st1 : GameState),
      GameState.update st keys frame_start = some st1 → st1.board = st.board) := by
  refine ⟨rfl, ?_, ?_⟩
  · intro i
    unfold Board.new
    simp only [List.getD, List.get?_eq_getElem?]
    exact List.getElem?_getD_replicate_default_eq _ _ _
  · intro st keys frame_start st1 hup
    unfold GameState.update at hup
    cases hpk : processKeys st keys with
    | none => rw [hpk] at hup; cases hup
    | some p =>
      rw [hpk] at hup
      obtain ⟨st2, b⟩ := p
      have hb : st2.board = st.board := processKeys_board keys st st2 b hpk
      cases b with
      | true =>
        injection hup with hup
        rw [← hup]
        exact hb
      | false =>
        have hup2 : gravityStep st2 frame_start = some st1 := hup
        obtain ⟨-, -, -, hb2⟩ := gravityStep_preserves st2 st1 frame_start hup2
        rw [hb2]
        exact hb

/-- Witness for C9: reading cell 42 of the fresh board and preserving the
board across the single-key update `[Down]` on the sample state. -/
theorem board_stays_clear_witness :
    (Board.new { height := 15, width := 10 }).cells.getD 42 false = false ∧
    droppedSample.board = sampleState.board :=
  ⟨board_stays_clear.2.1 42,
   board_stays_clear.2.2 sampleState [Key.down] 0 droppedSample rfl⟩

/-- The `zip_longest` pairing produces `max` of the two lengths rows. -/
theorem zipLongest_length : ∀ (A B : List String),
    (zipLongest A B).length = max A.length B.length := by
  intro A
  induction A with
  | nil =>
    intro B
    induction B with
    | nil =>
      simp only [zipLongest, List.length_map, List.length_nil]
      omega
    | cons b bs ihb =>
      simp only [zipLongest, List.length_map, List.length_cons, List.length_nil] at *
      omega
  | cons a as2 iha =>
    intro B
    cases B with
    | nil =>
      have h := iha []
      simp only [zipLongest, List.length_cons, List.length_nil] at *
      omega
    | cons b bs =>
      have h := iha bs
      simp only [zipLongest, List.length_cons] at *
      omega

/-- Row `i` of the `zip_longest` pairing is the pair of row `i` of each
block, the empty string standing in for a missing row. -/
theorem zipLongest_getD : ∀ (A B : List String) (i : Nat),
    i < max A.length B.length →
    (zipLongest A B).getD i ("", "") = (A.getD i "", B.getD i "") := by
  intro A
  induction A with
  | nil =>
    intro B
    induction B with
    | nil =>
      intro i hi
      simp only [List.length_nil] at hi
      omega
    | cons b bs ihb =>
      intro i hi
      cases i with
      | zero => simp only [zipLongest, List.map_cons, List.getD_cons_zero, List.getD_nil]
      | succ j =>
        simp only [zipLongest, List.map_cons, List.getD_cons_succ]
        have hj : j < max ([] : List String).length bs.length := by
          simp only [List.length_nil, List.length_cons] at hi ⊢
          omega
        exact ihb j hj
  | cons a as2 iha =>
    intro B
    cases B with
    | nil =>
      intro i hi
      cases i with
      | zero => simp only [zipLongest, List.getD_cons_zero, List.getD_nil]
      | succ j =>
        simp only [zipLongest, List.getD_cons_succ]
        have hj : j < max as2.length ([] : List String).length := by
          simp only [List.length_nil, List.length_cons] at hi ⊢
          omega
        exact iha [] j hj
    | cons b bs =>
      intro i hi
      cases i with
      | zero => simp only [zipLongest, List.getD_cons_zero]
      | succ j =>
        simp only [zipLongest, List.getD_cons_succ]
        have hj : j < max as2.length bs.length := by
          simp only [List.length_cons] at hi
          omega
        exact iha bs j hj

/-- C5: the dual-column compositor emits exactly `max(|A|,|B|)` rows, and
row `i` is row `i` of the stats block (empty string past its end) padded
to the stats block's maximum line width, two spaces, then row `i` of the
board block padded to its own maximum line width; being a plain function
of the two blocks it is deterministic. -/
theorem compositor_rows (statistics_part board_part : List String) :
    (composeColumns statistics_part board_part).length =
      max statistics_part.length board_part.length ∧
    ∀ i : Nat, i < max statistics_part.length board_part.length →
      (composeColumns statistics_part board_part).getD i "" =
        padTo (statistics_part.getD i "") (required_width statistics_part) ++
          "  " ++ padTo (board_part.getD i "") (required_width board_part) := by
  constructor
  · unfold composeColumns
    rw [List.length_map]
    exact zipLongest_length _ _
  · intro i hi
    have hlen : i < (zipLongest statistics_part board_part).length := by
      rw [zipLongest_length]
      exact hi
    have hz := zipLongest_getD statistics_part board_part i hi
    rw [List.getD_eq_getElem _ _ hlen] at hz
    have hmap : i < (composeColumns statistics_part board_part).length := by
      unfold composeColumns
      rw [List.length_map]
      exact hlen
    rw [List.getD_eq_getElem _ _ hmap]
    unfold composeColumns
    rw [List.getElem_map]
    rw [hz]

/-- Witness for C5 on the spec's example blocks: the stats block
`["A:1", "B:22"]` (width 4) and the board block of 3 width-6 lines give
3 rows, and row 2 pairs the empty string with the third board line. -/
theorem compositor_rows_witness :
    (composeColumns ["A:1", "B:22"] ["<!..!>", "<!..!>", "<!==!>"]).length = 3 ∧
    (composeColumns ["A:1", "B:22"] ["<!..!>", "<!..!>", "<!==!>"]).getD 2 "" =
      "    " ++ "  " ++ "<!==!>" := by
  constructor
  · exact (compositor_rows ["A:1", "B:22"] ["<!..!>", "<!..!>", "<!==!>"]).1
  · have h := (compositor_rows ["A:1", "B:22"] ["<!..!>", "<!..!>", "<!==!>"]).2 2
      (by decide)
    rw [h]
    decide
